import Mathlib

/-!
Shallow embedding of `src/icetemperature/lib/analytical_solutions.py`
(benhills/IceTemperature): the four analytical ice-temperature solvers
`Robin_T`, `Rezvan_T`, `Meyer_T`, `Perol_T`.

Real-valued numerics are embedded over `ℝ`: `numpy.exp` is `Real.exp`,
`scipy.special.erf` is the Gauss error function defined below via an
interval integral, and `scipy.integrate.quad f a b` is the interval
integral `∫ t in a..b, f t`.  External collaborator functions supplied by
the `ice_properties` module (`rate_factor`, `conductivity`,
`heat_capacity`) and the special functions `gammaincc`, `gamma`,
`lambertw` are consumed as black boxes (function parameters), matching
the spec's external-interface contract.

The module `analytical_solutions.py` defines no module-level name `H`;
the expressions `const.rho*const.g*H*abs(dHdx)` (Rezvan, slope branch)
and `T[m.z/H<hbar]` (Meyer, diffusion-only branch) therefore read an
unbound identifier and raise `NameError` at run time.  Those two paths
are embedded as `Except.error` outcomes.
-/

open MeasureTheory intervalIntegral Filter Topology
open scoped Classical

set_option linter.unusedVariables false

namespace IceTemp

/-- The `constants` container (external collaborator, read-only fields used by
the solvers). -/
structure Constants where
  k : ℝ
  rho : ℝ
  Cp : ℝ
  L : ℝ
  g : ℝ
  n : ℝ
  spy : ℝ

/-- The `Model` container: depth grid `z`, surface temperature `Ts`,
thickness `H`, accumulation `adot`, geothermal flux `qgeo`,
pressure-melting-point profile `pmp`, shear strain rate `eps_xy`. -/
structure Model where
  z : List ℝ
  Ts : ℝ
  H : ℝ
  adot : ℝ
  qgeo : ℝ
  pmp : List ℝ
  eps_xy : ℝ

/-- Model `m` with the accumulation rate replaced (used to state limits in
`adot`). -/
def Model.setAdot (m : Model) (a : ℝ) : Model :=
  ⟨m.z, m.Ts, m.H, a, m.qgeo, m.pmp, m.eps_xy⟩

/-- Gauss error function, `scipy.special.erf`. -/
noncomputable def erf (x : ℝ) : ℝ :=
  2 / Real.sqrt Real.pi * ∫ t in (0:ℝ)..x, Real.exp (-t ^ 2)

/-- Value of `quad(f,0,zi)[0]` for the Robin integrand `f = exp(-(z**2.)*q2)`. -/
noncomputable def robinI (q2 zi : ℝ) : ℝ :=
  ∫ t in (0:ℝ)..zi, Real.exp (-t ^ 2 * q2)

/-- First pass of `Robin_T` (lines 47-54): raw basal-referenced profile
shifted so the surface-most grid point matches `Ts`. -/
noncomputable def Robin_first (m : Model) (c : Constants) : List ℝ :=
  let alpha := c.k / (c.rho * c.Cp)
  let q2 := m.adot / (2 * alpha * m.H)
  let Tb_grad := -m.qgeo / c.k
  let TTb := m.z.map fun zi => Tb_grad * robinI q2 zi
  let dTs := m.Ts - TTb.getLastD 0
  TTb.map fun x => x + dTs

/-- Melt re-solve of `Robin_T` (lines 57-60): basal gradient recomputed
from the melting-point constraint.  Note the source writes
`np.sqrt(erf(m.adot*m.H/(2.*alpha)))**(-1)`: the square root of the
error function of `q2*H^2`, not the error function of its square root. -/
noncomputable def Robin_melt (m : Model) (c : Constants) : List ℝ :=
  let alpha := c.k / (c.rho * c.Cp)
  let q2 := m.adot / (2 * alpha * m.H)
  let Tb_grad := -2 * Real.sqrt q2 * (m.pmp.headI - m.Ts) / Real.sqrt Real.pi *
    (Real.sqrt (erf (m.adot * m.H / (2 * alpha))))⁻¹
  let TTb := m.z.map fun zi => Tb_grad * robinI q2 zi
  let dTs := m.Ts - TTb.getLastD 0
  TTb.map fun x => x + dTs

/-- Solver `Robin_T` (lines 21-66): first pass, then if melting is allowed and
the basal-most temperature exceeds the basal pressure-melting point,
the melt re-solve. -/
noncomputable def Robin_T (m : Model) (c : Constants) (melt : Bool) : List ℝ :=
  if melt = true ∧ (Robin_first m c).headI > m.pmp.headI then Robin_melt m c
  else Robin_first m c

/-- Solver `Rezvan_T` (lines 70-132).  Here `rate_factor`, `gammaincc` (regularized
upper incomplete gamma) and `gammafn` (ordinary gamma) are consumed as
black boxes.  When `dHdx != 0` and `tau_dx == 0` the source evaluates
`const.rho*const.g*H*abs(dHdx)` where `H` is an unbound name, raising
`NameError`.  The strain-heating block (lines 117-122) computes a local
`qgeo = m.qgeo + qgeo_s` that the final expression (line 131) never
reads: line 131 uses `m.qgeo`. -/
noncomputable def Rezvan_T (m : Model) (c : Constants)
    (rate_factor : ℝ → Constants → ℝ)
    (gammaincc : ℝ → ℝ → ℝ) (gammafn : ℝ → ℝ)
    (T_ratefactor dHdx tau_dx gamma0 : ℝ) (gamma_plus : Bool) :
    Except String (List ℝ) :=
  let alpha := c.k / (c.rho * c.Cp)
  let gamma := if gamma_plus then 1.39 + 0.044 * Real.log (m.adot * m.H / alpha)
    else gamma0
  if dHdx ≠ 0 ∧ tau_dx = 0 then
    Except.error "NameError: name H is not defined"
  else
    let A := rate_factor T_ratefactor c
    let qgeo_s := 2 / 5 * A * m.H * tau_dx ^ 4
    let qgeo := if tau_dx ≠ 0 then m.qgeo + qgeo_s else m.qgeo
    let lamb := m.adot / (alpha * m.H ^ gamma)
    let phi := -lamb / (gamma + 1)
    Except.ok <| m.z.map fun zi =>
      m.Ts + m.qgeo * (-phi) ^ (-1 / (gamma + 1)) / (c.k * (gamma + 1)) *
        (gammaincc (1 / (1 + gamma)) (-phi * zi ^ (gamma + 1)) * gammafn (1 / (1 + gamma)) -
         gammaincc (1 / (1 + gamma)) (-phi * m.H ^ (gamma + 1)) * gammafn (1 / (1 + gamma)))

/-- Bulk temperature used by `Meyer_T` and `Perol_T`: the supplied value,
or the average of `Ts` and the basal pressure-melting point. -/
noncomputable def bulkT (m : Model) (T_bulk : Option ℝ) : ℝ :=
  T_bulk.getD ((m.Ts + m.pmp.headI) / 2)

/-- Solver `Meyer_T` (lines 136-209).  In the diffusion-only branch
(`|Pe| < 1e-3`) the masking line `T[m.z/H<hbar] = 0.` reads the unbound
name `H`, raising `NameError`; the advection-diffusion branch masks with
`m.z/m.H`. -/
noncomputable def Meyer_T (m : Model) (c : Constants)
    (conductivity : ℝ → ℝ → ℝ) (heat_capacity : ℝ → ℝ)
    (rate_factor : ℝ → Constants → ℝ) (lambertW : ℝ → ℝ)
    (T_bulk : Option ℝ) (Tb lam : ℝ) : Except String (List ℝ) :=
  let Tbulk := bulkT m T_bulk
  let k := conductivity Tbulk c.rho
  let Cp := heat_capacity Tbulk
  let A := rate_factor Tbulk c
  let S := 2 * A ^ (-1 / c.n) * m.eps_xy ^ ((c.n + 1) / c.n)
  let dT := Tb - m.Ts
  let Br := S * m.H ^ 2 / (k * dT)
  let Pe := c.rho * Cp * m.adot * m.H / k
  let LAM := lam * m.H ^ 2 / (k * dT)
  if |Pe| < 1e-3 then
    Except.error "NameError: name H is not defined"
  else
    let eps_1 := (0.5 * Pe ^ 2 / (Pe - 1 + Real.exp (-Pe)) + 0.5 * LAM) ^ (c.n / (c.n + 1))
    let eps_bar := eps_1 * (k * dT / (A ^ (-1 / c.n) * m.H ^ 2)) ^ (c.n / (c.n + 1))
    let hbar := if m.eps_xy > eps_bar then
        1 - Pe / (Br - LAM) +
          -(1 / Pe) * (1 + lambertW (-Real.exp (-(Pe ^ 2 / (Br - LAM)) - 1)))
      else 0
    Except.ok <| m.z.map fun zi =>
      if zi / m.H < hbar then 0
      else m.Ts + dT * ((Br - LAM) / Pe) *
        (1 - zi / m.H + 1 / Pe * Real.exp (Pe * (hbar - 1)) -
          1 / Pe * Real.exp (Pe * (hbar - zi / m.H)))

/-- Péclet number of `Perol_T` (line 245): `Pe = adot*H/(k/(rho*Cp))`
with `k` and `Cp` evaluated at the bulk temperature. -/
noncomputable def perolPe (m : Model) (c : Constants)
    (conductivity : ℝ → ℝ → ℝ) (heat_capacity : ℝ → ℝ) (T_bulk : Option ℝ) : ℝ :=
  m.adot * m.H /
    (conductivity (bulkT m T_bulk) c.rho / (c.rho * heat_capacity (bulkT m T_bulk)))

/-- Strain heating of `Perol_T` (line 247):
`S = 2*A^(-1/n)*(eps_xy/2)^((n+1)/n)`. -/
noncomputable def perolS (m : Model) (c : Constants)
    (rate_factor : ℝ → Constants → ℝ) (T_bulk : Option ℝ) : ℝ :=
  2 * rate_factor (bulkT m T_bulk) c ^ (-1 / c.n) * (m.eps_xy / 2) ^ ((c.n + 1) / c.n)

/-- One iteration of the `Perol_T` depth loop (lines 252-261): the
temperature at depth `zi`, with the two per-point quadratures `f1`
and `f2`. -/
noncomputable def perolEntry (m : Model) (c : Constants)
    (conductivity : ℝ → ℝ → ℝ) (heat_capacity : ℝ → ℝ)
    (rate_factor : ℝ → Constants → ℝ) (T_bulk : Option ℝ) (zi : ℝ) : ℝ :=
  let k := conductivity (bulkT m T_bulk) c.rho
  let Pe := perolPe m c conductivity heat_capacity T_bulk
  let S := perolS m c rate_factor T_bulk
  m.pmp.headI +
    (m.Ts - m.pmp.headI) * erf (Real.sqrt (Pe / 2) * (zi / m.H)) /
      erf (Real.sqrt (Pe / 2)) -
    S * m.H ^ 2 / (k * Pe) *
      ((∫ lam in (0:ℝ)..1,
          (1 - Real.exp (-lam * Pe * zi ^ 2 / (2 * m.H ^ 2))) /
            (2 * lam * Real.sqrt (1 - lam))) -
        erf (Real.sqrt (Pe / 2) * (zi / m.H)) / erf (Real.sqrt (Pe / 2)) *
          ∫ lam in (0:ℝ)..1,
            (1 - Real.exp (-lam * Pe / 2)) / (2 * lam * Real.sqrt (1 - lam)))

/-- Solver `Perol_T` (lines 213-262): pointwise evaluation over the depth grid. -/
noncomputable def Perol_T (m : Model) (c : Constants)
    (conductivity : ℝ → ℝ → ℝ) (heat_capacity : ℝ → ℝ)
    (rate_factor : ℝ → Constants → ℝ) (T_bulk : Option ℝ) : List ℝ :=
  m.z.map (perolEntry m c conductivity heat_capacity rate_factor T_bulk)

/-- Concrete constants: `k = rho = Cp = L = g = spy = 1`, `n = 3`. -/
def c1 : Constants := ⟨1, 1, 1, 1, 1, 3, 1⟩

/-- Concrete model for the Robin melt re-solve: two-point grid `[0, 1]`,
`Ts = -30`, `H = 1`, `adot = 2` (so `q2 = 1`), `qgeo = 1000`,
`pmp = [0, 0]`. -/
def m1 : Model := ⟨[0, 1], -30, 1, 2, 1000, [0, 0], 0⟩

/-- Concrete model with `adot = 0` (zero Péclet number). -/
def m0 : Model := ⟨[0, 1], -30, 1, 0, 1, [0, 0], 1⟩

/-- Concrete model with `qgeo = 0` (first Robin pass stays below the
pressure-melting point). -/
def m9 : Model := ⟨[0, 1], -30, 1, 1, 0, [0, 0], 1⟩

/-- Concrete model for the Perol boundary values: `adot = 1 > 0`. -/
def m5 : Model := ⟨[0, 1], -30, 1, 1, 1, [0, 0], 1⟩

theorem headI_map (f : ℝ → ℝ) (l : List ℝ) (hl : l ≠ []) :
    (l.map f).headI = f l.headI := by
  cases l with
  | nil => exact absurd rfl hl
  | cons a t => rfl

theorem getLastD_map (f : ℝ → ℝ) :
    ∀ (l : List ℝ), l ≠ [] → ∀ d e : ℝ, (l.map f).getLastD d = f (l.getLastD e) := by
  intro l
  induction l with
  | nil => intro h; exact absurd rfl h
  | cons a t ih =>
    intro _ d e
    cases t with
    | nil => rfl
    | cons b u =>
      have h2 : (b :: u : List ℝ) ≠ [] := by simp
      show (f a :: (b :: u).map f).getLastD d = f ((a :: b :: u).getLastD e)
      rw [List.getLastD_cons, List.getLastD_cons]
      exact ih h2 (f a) a

/-- The Robin integrand integrates to the depth itself when `q2 = 0`. -/
theorem robinI_zero (zi : ℝ) : robinI 0 zi = zi := by
  unfold robinI
  simp

theorem robinI_same (q2 : ℝ) : robinI q2 0 = 0 :=
  intervalIntegral.integral_same

theorem erf_zero_eq : erf 0 = 0 := by
  unfold erf
  simp

theorem Robin_T_length (m : Model) (c : Constants) (melt : Bool) :
    (Robin_T m c melt).length = m.z.length := by
  unfold Robin_T Robin_melt Robin_first
  split <;> simp

theorem except_ite_map_length (p : Prop) [Decidable p] (s : String) (f : ℝ → ℝ)
    (zs : List ℝ) :
    (if p then Except.error s else Except.ok (zs.map f) : Except String (List ℝ)).map
        List.length =
      (if p then Except.error s else Except.ok (zs.map f)).map fun _ => zs.length := by
  split <;> simp [Except.map]

theorem Rezvan_T_length (m : Model) (c : Constants) (rf : ℝ → Constants → ℝ)
    (gi : ℝ → ℝ → ℝ) (gf : ℝ → ℝ) (Tr dHdx tau g : ℝ) (gp : Bool) :
    (Rezvan_T m c rf gi gf Tr dHdx tau g gp).map List.length =
      (Rezvan_T m c rf gi gf Tr dHdx tau g gp).map fun _ => m.z.length :=
  except_ite_map_length _ _ _ m.z

theorem Meyer_T_length (m : Model) (c : Constants) (cond : ℝ → ℝ → ℝ)
    (hcap : ℝ → ℝ) (rf : ℝ → Constants → ℝ) (lw : ℝ → ℝ)
    (Tbk : Option ℝ) (Tb lam : ℝ) :
    (Meyer_T m c cond hcap rf lw Tbk Tb lam).map List.length =
      (Meyer_T m c cond hcap rf lw Tbk Tb lam).map fun _ => m.z.length :=
  except_ite_map_length _ _ _ m.z

theorem Perol_T_length (m : Model) (c : Constants) (cond : ℝ → ℝ → ℝ)
    (hcap : ℝ → ℝ) (rf : ℝ → Constants → ℝ) (Tbk : Option ℝ) :
    (Perol_T m c cond hcap rf Tbk).length = m.z.length := by
  unfold Perol_T
  simp

/-- At the basal grid point `zi = 0` the Perol formula collapses to the
basal pressure-melting point: the error-function ratio and the first
quadrature both vanish. -/
theorem perolEntry_basal (m : Model) (c : Constants) (cond : ℝ → ℝ → ℝ)
    (hcap : ℝ → ℝ) (rf : ℝ → Constants → ℝ) (Tbk : Option ℝ) :
    perolEntry m c cond hcap rf Tbk 0 = m.pmp.headI := by
  unfold perolEntry
  norm_num [erf_zero_eq]

/-- C8: every returned temperature array of the four solvers has the same
length as, and is aligned index-by-index with, the input depth grid
`m.z` (for `Rezvan_T` and `Meyer_T` this is stated on the `Except.ok`
payload via `Except.map`). -/
theorem solvers_output_length (m : Model) (c : Constants) (melt : Bool)
    (rf : ℝ → Constants → ℝ) (gi : ℝ → ℝ → ℝ) (gf : ℝ → ℝ)
    (Tr dHdx tau g : ℝ) (gp : Bool) (cond : ℝ → ℝ → ℝ) (hcap : ℝ → ℝ)
    (lw : ℝ → ℝ) (Tbk : Option ℝ) (Tb lam : ℝ) :
    (Robin_T m c melt).length = m.z.length ∧
    ((Rezvan_T m c rf gi gf Tr dHdx tau g gp).map List.length =
      (Rezvan_T m c rf gi gf Tr dHdx tau g gp).map fun _ => m.z.length) ∧
    ((Meyer_T m c cond hcap rf lw Tbk Tb lam).map List.length =
      (Meyer_T m c cond hcap rf lw Tbk Tb lam).map fun _ => m.z.length) ∧
    (Perol_T m c cond hcap rf Tbk).length = m.z.length :=
  ⟨Robin_T_length m c melt, Rezvan_T_length m c rf gi gf Tr dHdx tau g gp,
    Meyer_T_length m c cond hcap rf lw Tbk Tb lam, Perol_T_length m c cond hcap rf Tbk⟩

/-- C10: with `gamma_plus = true` the supplied `gamma` argument is
unconditionally overwritten by the Péclet-number regression
`1.39 + 0.044*log(Pe)` before any use, so the output of `Rezvan_T` does
not depend on it. -/
theorem rezvan_gamma_arg_ignored (m : Model) (c : Constants)
    (rf : ℝ → Constants → ℝ) (gi : ℝ → ℝ → ℝ) (gf : ℝ → ℝ)
    (Tr dHdx tau g1 g2 : ℝ) :
    Rezvan_T m c rf gi gf Tr dHdx tau g1 true =
      Rezvan_T m c rf gi gf Tr dHdx tau g2 true := rfl

/-- C2 (code bug): the strain-heating block of `Rezvan_T` computes a local
effective geothermal flux `qgeo = m.qgeo + (2/5)*A*H*tau_dx^4`, but the
final closed-form expression (source line 131) reads `m.qgeo`, so the
output is independent of the driving stress: two calls differing only in
`tau_dx` (with `dHdx = 0`) return the same profile. -/
theorem rezvan_strain_heating_dead (m : Model) (c : Constants)
    (rf : ℝ → Constants → ℝ) (gi : ℝ → ℝ → ℝ) (gf : ℝ → ℝ)
    (Tr tau tau2 g : ℝ) (gp : Bool) :
    Rezvan_T m c rf gi gf Tr 0 tau g gp = Rezvan_T m c rf gi gf Tr 0 tau2 g gp := by
  unfold Rezvan_T
  simp

/-- C7 (code bug): with a nonzero surface slope and no explicit driving
stress, the slope branch of `Rezvan_T` evaluates
`const.rho*const.g*H*abs(dHdx)` where `H` is an unbound name, so the
call raises `NameError` instead of returning a profile. -/
theorem rezvan_slope_name_error :
    Rezvan_T m1 c1 (fun _ _ => 1) (fun _ _ => 1) (fun _ => 1) (-10) (1/100) 0 1.397 false =
      Except.error "NameError: name H is not defined" := by
  unfold Rezvan_T
  norm_num

/-- C3 (code bug): in the diffusion-only branch of `Meyer_T`
(`|Pe| < 1e-3`, here `adot = 0` so `Pe = 0`) the clamping line
`T[m.z/H<hbar] = 0.` reads the unbound name `H` and the call raises
`NameError`; only the advection-diffusion branch clamps with `m.z/m.H`
and returns. -/
theorem meyer_diffusion_name_error :
    Meyer_T m0 c1 (fun _ _ => 1) (fun _ => 1) (fun _ _ => 1) (fun x => x) none 0 0 =
      Except.error "NameError: name H is not defined" := by
  unfold Meyer_T
  norm_num [bulkT, m0, c1]

/-- C9: when the first-pass basal temperature does not exceed the basal
pressure-melting point, the `melt` flag has no effect: `Robin_T` with
`melt = true` returns the same profile as with `melt = false`. -/
theorem robin_melt_flag_noop (m : Model) (c : Constants)
    (h : ¬ (Robin_first m c).headI > m.pmp.headI) :
    Robin_T m c true = Robin_T m c false := by
  unfold Robin_T
  rw [if_neg (fun hc => h hc.2), if_neg (by simp)]

/-- C4 (code bug): solver `Perol_T` has no zero-Péclet fallback.  At `adot = 0`
every factor built from `erf` and the quadratures vanishes (in the
implementation the ratio `erf(0)/erf(0)` is `0/0`), so the returned
profile degenerates to the constant basal pressure-melting point `[0, 0]`
instead of the claimed linear interpolation: in particular the surface
value is not the surface temperature `Ts = -30`. -/
theorem perol_zero_pe_no_fallback :
    Perol_T m0 c1 (fun _ _ => 1) (fun _ => 1) (fun _ _ => 1) none = [0, 0] ∧
      (Perol_T m0 c1 (fun _ _ => 1) (fun _ => 1) (fun _ _ => 1) none).getLastD 0 ≠ m0.Ts := by
  have hPe0 : perolPe m0 c1 (fun _ _ => 1) (fun _ => 1) none = 0 := by
    unfold perolPe
    norm_num [m0]
  have h : Perol_T m0 c1 (fun _ _ => 1) (fun _ => 1) (fun _ _ => 1) none = [0, 0] := by
    unfold Perol_T perolEntry
    rw [hPe0]
    norm_num [bulkT, m0, c1, erf_zero_eq]
  refine ⟨h, ?_⟩
  rw [h]
  norm_num [m0]

theorem exp_neg_sq_intervalIntegrable (a b : ℝ) :
    IntervalIntegrable (fun t : ℝ => Real.exp (-t ^ 2)) volume a b :=
  (Real.continuous_exp.comp (continuous_pow 2).neg).intervalIntegrable a b

/-- The error function is positive on positive arguments. -/
theorem erf_pos {x : ℝ} (hx : 0 < x) : 0 < erf x := by
  unfold erf
  have h1 : 0 < ∫ t in (0:ℝ)..x, Real.exp (-t ^ 2) :=
    intervalIntegral_pos_of_pos (exp_neg_sq_intervalIntegrable 0 x)
      (fun t => Real.exp_pos _) hx
  exact mul_pos (div_pos two_pos (Real.sqrt_pos.mpr Real.pi_pos)) h1

/-- Bound `erf 1 < 1`, via `exp (-t^2) ≤ 1/(1+t^2)` and `∫ 1/(1+t^2) = π/4`. -/
theorem erf_one_lt_one : erf 1 < 1 := by
  have hb : ∀ t : ℝ, Real.exp (-t ^ 2) ≤ 1 / (1 + t ^ 2) := by
    intro t
    have h1 : (0:ℝ) < 1 + t ^ 2 := by positivity
    rw [Real.exp_neg, one_div]
    exact inv_anti₀ h1 (by nlinarith [Real.add_one_le_exp (t ^ 2)])
  have hJ : (∫ t in (0:ℝ)..1, Real.exp (-t ^ 2)) ≤ ∫ t in (0:ℝ)..1, 1 / (1 + t ^ 2) := by
    apply intervalIntegral.integral_mono_on zero_le_one (exp_neg_sq_intervalIntegrable 0 1)
    · exact (continuous_const.div (by continuity) fun t => by positivity).intervalIntegrable 0 1
    · exact fun t _ => hb t
  rw [integral_one_div_one_add_sq, Real.arctan_one, Real.arctan_zero, sub_zero] at hJ
  have hsq : 0 < Real.sqrt Real.pi := Real.sqrt_pos.mpr Real.pi_pos
  have hmul : Real.sqrt Real.pi * Real.sqrt Real.pi = Real.pi :=
    Real.mul_self_sqrt Real.pi_pos.le
  have hlt2 : Real.sqrt Real.pi < 2 := by
    have h4 : Real.sqrt Real.pi < Real.sqrt 4 :=
      Real.sqrt_lt_sqrt Real.pi_pos.le (by nlinarith [Real.pi_lt_d2])
    have h42 : Real.sqrt 4 = 2 := by
      rw [show (4:ℝ) = 2 ^ 2 by norm_num, Real.sqrt_sq (by norm_num : (0:ℝ) ≤ 2)]
    linarith
  have hstep : 2 / Real.sqrt Real.pi * (Real.pi / 4) = Real.sqrt Real.pi / 2 := by
    field_simp
    nlinarith [hmul]
  unfold erf
  calc 2 / Real.sqrt Real.pi * ∫ t in (0:ℝ)..1, Real.exp (-t ^ 2)
      ≤ 2 / Real.sqrt Real.pi * (Real.pi / 4) :=
        mul_le_mul_of_nonneg_left hJ (by positivity)
    _ = Real.sqrt Real.pi / 2 := hstep
    _ < 1 := by linarith
theorem robin_melt_flag_noop_witness :
    ¬ (Robin_first m9 c1).headI > m9.pmp.headI ∧
      Robin_T m9 c1 true = Robin_T m9 c1 false := by
  have h : ¬ (Robin_first m9 c1).headI > m9.pmp.headI := by
    norm_num [Robin_first, m9, c1]
  exact ⟨h, robin_melt_flag_noop m9 c1 h⟩

/-- At the surface grid point `zi = m.H` the Perol formula collapses to
the surface temperature: the error-function ratio is `1` and the two
quadratures coincide. -/
theorem perolEntry_surface (m : Model) (c : Constants) (cond : ℝ → ℝ → ℝ)
    (hcap : ℝ → ℝ) (rf : ℝ → Constants → ℝ) (Tbk : Option ℝ)
    (hadot : 0 < m.adot) (hHpos : 0 < m.H) (hrho : 0 < c.rho)
    (hk : 0 < cond (bulkT m Tbk) c.rho) (hcp : 0 < hcap (bulkT m Tbk)) :
    perolEntry m c cond hcap rf Tbk m.H = m.Ts := by
  have hPe : 0 < perolPe m c cond hcap Tbk := by
    unfold perolPe
    exact div_pos (mul_pos hadot hHpos) (div_pos hk (mul_pos hrho hcp))
  have hE : erf (Real.sqrt (perolPe m c cond hcap Tbk / 2)) ≠ 0 :=
    (erf_pos (Real.sqrt_pos.mpr (half_pos hPe))).ne'
  have hH0 : m.H ≠ 0 := hHpos.ne'
  have hH2 : m.H ^ 2 ≠ 0 := pow_ne_zero 2 hH0
  simp only [perolEntry]
  rw [div_self hH0, mul_one, mul_div_cancel_right₀ _ hE, div_self hE]
  have hQ : (∫ lam in (0:ℝ)..1,
        (1 - Real.exp (-lam * perolPe m c cond hcap Tbk * m.H ^ 2 / (2 * m.H ^ 2))) /
          (2 * lam * Real.sqrt (1 - lam))) =
      ∫ lam in (0:ℝ)..1,
        (1 - Real.exp (-lam * perolPe m c cond hcap Tbk / 2)) /
          (2 * lam * Real.sqrt (1 - lam)) := by
    apply intervalIntegral.integral_congr
    intro lam _
    have harg : -lam * perolPe m c cond hcap Tbk * m.H ^ 2 / (2 * m.H ^ 2) =
        -lam * perolPe m c cond hcap Tbk / 2 := by
      field_simp
      ring
    simp only [harg]
  rw [hQ]
  ring

/-- C5: for physically valid inputs (`adot > 0`, `H > 0`, positive density,
conductivity and heat capacity) and a grid running from the base `z = 0`
to the surface `z = H`, the Perol profile equals the basal
pressure-melting point at the basal grid point and the prescribed surface
temperature at the surface grid point (exactly, in the real-number
semantics of the embedding). -/
theorem perol_boundary_values (m : Model) (c : Constants) (cond : ℝ → ℝ → ℝ)
    (hcap : ℝ → ℝ) (rf : ℝ → Constants → ℝ) (Tbk : Option ℝ)
    (hne : m.z ≠ []) (h0 : m.z.headI = 0) (hH : m.z.getLastD 0 = m.H)
    (hadot : 0 < m.adot) (hHpos : 0 < m.H) (hrho : 0 < c.rho)
    (hk : 0 < cond (bulkT m Tbk) c.rho) (hcp : 0 < hcap (bulkT m Tbk)) :
    (Perol_T m c cond hcap rf Tbk).headI = m.pmp.headI ∧
      (Perol_T m c cond hcap rf Tbk).getLastD 0 = m.Ts := by
  constructor
  · unfold Perol_T
    rw [headI_map _ _ hne, h0, perolEntry_basal]
  · unfold Perol_T
    rw [getLastD_map _ _ hne 0 0, hH,
      perolEntry_surface m c cond hcap rf Tbk hadot hHpos hrho hk hcp]

/-- Witness for C5 at a concrete input: grid `[0, 1]`, `H = 1`,
`adot = 1`, unit collaborator functions. -/
theorem perol_boundary_values_witness :
    (m5.z ≠ [] ∧ m5.z.headI = 0 ∧ m5.z.getLastD 0 = m5.H ∧ 0 < m5.adot ∧ 0 < m5.H ∧
      0 < c1.rho) ∧
    (Perol_T m5 c1 (fun _ _ => 1) (fun _ => 1) (fun _ _ => 1) none).headI = m5.pmp.headI ∧
      (Perol_T m5 c1 (fun _ _ => 1) (fun _ => 1) (fun _ _ => 1) none).getLastD 0 = m5.Ts := by
  refine ⟨⟨by simp [m5], by norm_num [m5], by norm_num [m5, c1], by norm_num [m5],
    by norm_num [m5], by norm_num [c1]⟩, ?_⟩
  exact perol_boundary_values m5 c1 (fun _ _ => 1) (fun _ => 1) (fun _ _ => 1) none
    (by simp [m5]) (by norm_num [m5]) (by norm_num [m5, c1]) (by norm_num [m5])
    (by norm_num [m5]) (by norm_num [c1]) (by norm_num) (by norm_num)

theorem getD_eq_getElem (l : List ℝ) (i : ℕ) (h : i < l.length) (d : ℝ) :
    l.getD i d = l[i] := by
  rw [List.getD_eq_getElem?_getD, List.getElem?_eq_getElem h]
  rfl

theorem getD_map (f : ℝ → ℝ) (l : List ℝ) (i : ℕ) (hi : i < l.length) (d : ℝ) :
    (l.map f).getD i d = f (l.getD i d) := by
  rw [List.getD_eq_getElem?_getD, List.getD_eq_getElem?_getD,
    List.getElem?_eq_getElem (by simpa using hi), List.getElem?_eq_getElem hi]
  simp

theorem Robin_T_false (m : Model) (c : Constants) :
    Robin_T m c false = Robin_first m c := by
  unfold Robin_T
  rw [if_neg (by simp)]

/-- Closed form of a `Robin_first` profile entry: the surface-anchored
antiderivative difference. -/
theorem Robin_first_getD (m : Model) (c : Constants) (i : ℕ) (hi : i < m.z.length) :
    (Robin_first m c).getD i 0 =
      m.Ts + m.qgeo / c.k *
        (robinI (m.adot / (2 * (c.k / (c.rho * c.Cp)) * m.H)) (m.z.getLastD 0) -
          robinI (m.adot / (2 * (c.k / (c.rho * c.Cp)) * m.H)) (m.z.getD i 0)) := by
  have hne : m.z ≠ [] := by
    intro h
    rw [h] at hi
    simp at hi
  have h1 : i < (m.z.map fun zi =>
      -m.qgeo / c.k * robinI (m.adot / (2 * (c.k / (c.rho * c.Cp)) * m.H)) zi).length := by
    simpa using hi
  simp only [Robin_first]
  rw [getD_map _ _ i h1 0, getD_map _ _ i hi 0, getLastD_map _ _ hne 0 0]
  ring

/-- C6: with zero accumulation the Robin integrand is constant `1` and the
profile is exactly the linear geothermal-gradient solution
`T(z) = Ts + qgeo/k*(H - z)`; moreover each profile entry tends to that
linear solution as `adot` tends to `0`. -/
theorem robin_zero_adot_linear (m : Model) (c : Constants)
    (hH : m.z.getLastD 0 = m.H) :
    Robin_T (m.setAdot 0) c false =
        m.z.map (fun zi => m.Ts + m.qgeo / c.k * (m.H - zi)) ∧
      ∀ i : ℕ, i < m.z.length →
        Tendsto (fun a => (Robin_T (m.setAdot a) c false).getD i 0) (𝓝 0)
          (𝓝 (m.Ts + m.qgeo / c.k * (m.H - m.z.getD i 0))) := by
  have key : ∀ (a : ℝ) (i : ℕ), i < m.z.length →
      (Robin_T (m.setAdot a) c false).getD i 0 =
        m.Ts + m.qgeo / c.k *
          (robinI (a / (2 * (c.k / (c.rho * c.Cp)) * m.H)) m.H -
            robinI (a / (2 * (c.k / (c.rho * c.Cp)) * m.H)) (m.z.getD i 0)) := by
    intro a i hi
    rw [Robin_T_false, Robin_first_getD (m.setAdot a) c i hi]
    simp only [Model.setAdot]
    rw [hH]
  constructor
  · apply List.ext_getElem
    · rw [Robin_T_false]
      simp [Robin_first, Model.setAdot]
    · intro i h1 h2
      have hi : i < m.z.length := by simpa using h2
      have hk := key 0 i hi
      rw [getD_eq_getElem _ i h1 0] at hk
      rw [hk, List.getElem_map, getD_eq_getElem _ i hi 0]
      simp [zero_div, robinI_zero]
  · intro i hi
    simp only [key _ i hi]
    have hcont : ∀ w : ℝ, Continuous fun q : ℝ => robinI q w := by
      intro w
      unfold robinI
      exact continuous_parametric_intervalIntegral_of_continuous (by fun_prop) continuous_const
    have hq : Continuous fun a : ℝ => a / (2 * (c.k / (c.rho * c.Cp)) * m.H) :=
      continuous_id.div_const _
    have hmain : Continuous fun a : ℝ =>
        m.Ts + m.qgeo / c.k *
          (robinI (a / (2 * (c.k / (c.rho * c.Cp)) * m.H)) m.H -
            robinI (a / (2 * (c.k / (c.rho * c.Cp)) * m.H)) (m.z.getD i 0)) :=
      continuous_const.add (continuous_const.mul
        (((hcont m.H).comp hq).sub ((hcont (m.z.getD i 0)).comp hq)))
    have ht := hmain.tendsto 0
    simpa [zero_div, robinI_zero] using ht

/-- Witness for C6 at a concrete input: grid `[0, 1]`, `H = 1`. -/
theorem robin_zero_adot_linear_witness :
    m5.z.getLastD 0 = m5.H ∧
      (Robin_T (m5.setAdot 0) c1 false =
          m5.z.map (fun zi => m5.Ts + m5.qgeo / c1.k * (m5.H - zi)) ∧
        ∀ i : ℕ, i < m5.z.length →
          Tendsto (fun a => (Robin_T (m5.setAdot a) c1 false).getD i 0) (𝓝 0)
            (𝓝 (m5.Ts + m5.qgeo / c1.k * (m5.H - m5.z.getD i 0)))) := by
  have h : m5.z.getLastD 0 = m5.H := by norm_num [m5]
  exact ⟨h, robin_zero_adot_linear m5 c1 h⟩

/-- The Robin quadrature at `q2 = 1` over `[0, 1]` in terms of `erf`. -/
theorem robinI_one_one : robinI 1 1 = Real.sqrt Real.pi / 2 * erf 1 := by
  have hs : Real.sqrt Real.pi ≠ 0 := (Real.sqrt_pos.mpr Real.pi_pos).ne'
  unfold robinI erf
  have hcongr : (∫ t in (0:ℝ)..1, Real.exp (-t ^ 2 * 1)) =
      ∫ t in (0:ℝ)..1, Real.exp (-t ^ 2) := by
    apply intervalIntegral.integral_congr
    intro t _
    simp only [mul_one]
  rw [hcongr]
  field_simp
  ring

/-- Crude lower bound on the Robin quadrature at `q2 = 1`. -/
theorem robinI_one_ge : Real.exp (-1) ≤ robinI 1 1 := by
  unfold robinI
  have h1 : (∫ t in (0:ℝ)..1, Real.exp (-1)) ≤
      ∫ t in (0:ℝ)..1, Real.exp (-t ^ 2 * 1) := by
    apply intervalIntegral.integral_mono_on zero_le_one
      (continuous_const.intervalIntegrable 0 1)
      ((Real.continuous_exp.comp
        ((continuous_pow 2).neg.mul continuous_const)).intervalIntegrable 0 1)
    intro t ht
    apply Real.exp_le_exp.mpr
    simp only [mul_one]
    nlinarith [ht.1, ht.2]
  simpa using h1

theorem exp_neg_one_gt : (0.3:ℝ) < Real.exp (-1) := by
  have he : Real.exp (-1) * Real.exp 1 = 1 := by
    rw [← Real.exp_add]
    norm_num
  nlinarith [Real.exp_one_lt_d9, Real.exp_pos 1, Real.exp_pos (-1)]

/-- First-pass basal temperature at the concrete melt input `m1`. -/
theorem robin_first_m1_headI :
    (Robin_first m1 c1).headI = -30 + 1000 * robinI 1 1 := by
  simp only [Robin_first, m1, c1]
  norm_num [robinI_same]

/-- At `m1` the first pass exceeds the basal pressure-melting point, so
the melt re-solve fires. -/
theorem robin_first_m1_exceeds : (Robin_first m1 c1).headI > m1.pmp.headI := by
  rw [robin_first_m1_headI]
  have hI := robinI_one_ge
  have h3 := exp_neg_one_gt
  show -30 + 1000 * robinI 1 1 > m1.pmp.headI
  have hp : m1.pmp.headI = 0 := by norm_num [m1]
  rw [hp]
  linarith

/-- Corrected basal temperature at `m1`: `-30 + 30*sqrt(erf 1)`. -/
theorem robin_melt_m1_headI :
    (Robin_T m1 c1 true).headI = -30 + 30 * Real.sqrt (erf 1) := by
  have hE : (0:ℝ) < erf 1 := erf_pos one_pos
  have hsE : (0:ℝ) < Real.sqrt (erf 1) := Real.sqrt_pos.mpr hE
  have hs : (0:ℝ) < Real.sqrt Real.pi := Real.sqrt_pos.mpr Real.pi_pos
  have hI1 : robinI 1 1 =
      Real.sqrt Real.pi / 2 * (Real.sqrt (erf 1) * Real.sqrt (erf 1)) := by
    rw [robinI_one_one, Real.mul_self_sqrt hE.le]
  unfold Robin_T
  rw [if_pos ⟨rfl, robin_first_m1_exceeds⟩]
  simp only [Robin_melt, m1, c1]
  norm_num [robinI_same, Real.sqrt_one, hI1]
  have hss : Real.sqrt (erf 1) * Real.sqrt (erf 1) = erf 1 := Real.mul_self_sqrt hE.le
  field_simp
  linear_combination (-60 * Real.sqrt Real.pi) * hss

/-- C1 (code bug): at `m1` melting is allowed and the first pass exceeds
the basal pressure-melting point, but the re-solved profile misses the
pressure-melting point at the base: the source divides by
`sqrt(erf(q2*H^2))` where the melting-point constraint requires
`erf(sqrt(q2*H^2))` (van der Veen's formula), leaving the corrected basal
temperature at `-30 + 30*sqrt(erf 1) < 0 = pmp`. -/
theorem robin_melt_misses_pmp :
    (Robin_first m1 c1).headI > m1.pmp.headI ∧
      (Robin_T m1 c1 true).headI ≠ m1.pmp.headI := by
  refine ⟨robin_first_m1_exceeds, ?_⟩
  rw [robin_melt_m1_headI]
  have hE : (0:ℝ) < erf 1 := erf_pos one_pos
  have hlt : Real.sqrt (erf 1) < 1 := by
    have h1 : Real.sqrt (erf 1) < Real.sqrt 1 := Real.sqrt_lt_sqrt hE.le erf_one_lt_one
    rwa [Real.sqrt_one] at h1
  have hp : m1.pmp.headI = 0 := by norm_num [m1]
  rw [hp]
  intro hcontra
  nlinarith

end IceTemp
